import Mathlib

/- A shallow embedding of the document-preprocessing pipeline in
   src/preprocessing/prepare_data.py and src/preprocessing/annonymization.py.
   Python strings are modelled as Lean String values (character-level
   operations work on String.data); Python dicts as insertion-ordered
   association lists; functions that catch exceptions internally are modelled
   through Except and collapse to their Python fallback value; the external
   spaCy capabilities (tokenizer, phrase matcher, entity recognizer) and the
   two compiled regexes are parameters of an environment structure. -/

namespace Prep

/-- Python str.strip character class: the whitespace stripped by str.strip(). -/
def isPyWs (c : Char) : Bool :=
  c == ' ' || c == '\t' || c == '\n' || c == '\r' || c == '\x0b' || c == '\x0c'

/-- Remove leading and trailing characters satisfying p (Python str.strip). -/
def stripEnds (p : Char → Bool) (l : List Char) : List Char :=
  ((l.dropWhile p).reverse.dropWhile p).reverse

/-- Python content.strip(). -/
def pyStrip (s : String) : String := ⟨stripEnds isPyWs s.data⟩

/-- Python item.strip on the double-quote character. -/
def stripQuote (s : String) : String := ⟨stripEnds (fun c => c == '"') s.data⟩

/-- Left-to-right scan replacing matches: models Python re.sub for patterns
that only produce non-empty matches, and Python str.replace. tm l returns the
length of a match starting at the head of l (none, or some 0, counts as no
match; every matcher embedded below matches at least one character). While
skip is positive the scanner is inside an already-replaced match and drops
characters without copying them. -/
def subGo (tm : List Char → Option Nat) (rep : List Char) : List Char → Nat → List Char
  | [], _ => []
  | _ :: rest, Nat.succ s => subGo tm rep rest s
  | c :: rest, 0 =>
    match tm (c :: rest) with
    | some (Nat.succ n) => rep ++ subGo tm rep rest n
    | _ => c :: subGo tm rep rest 0

/-- Matcher of a literal pattern (a Python re.escape'd phrase, or the needle
of str.replace). -/
def litMatch (pat : List Char) (l : List Char) : Option Nat :=
  if pat ≠ [] ∧ pat.isPrefixOf l then some pat.length else none

/-- Python pattern.sub(rep, s) for the modelled matchers. -/
def regexSub (tm : List Char → Option Nat) (rep : String) (s : String) : String :=
  ⟨subGo tm rep.data s.data 0⟩

/-- Split a character list at the leftmost non-overlapping occurrences of pat,
with the same scan discipline as subGo; the resulting segments are exactly the
characters that subGo copies through unchanged. -/
def splitGo (pat : List Char) : List Char → Nat → List (List Char)
  | [], _ => [[]]
  | _ :: rest, Nat.succ s => splitGo pat rest s
  | c :: rest, 0 =>
    if pat ≠ [] ∧ pat.isPrefixOf (c :: rest) then
      [] :: splitGo pat rest (pat.length - 1)
    else
      match splitGo pat rest 0 with
      | [] => [[c]]
      | seg :: segs => (c :: seg) :: segs

/-- Interleave rep between segments (the joining direction of splitGo). -/
def joinSep (rep : List Char) : List (List Char) → List Char
  | [] => []
  | [seg] => seg
  | seg :: seg2 :: segs => seg ++ rep ++ joinSep rep (seg2 :: segs)

/-- Python s.split(sep) for a one-character separator. -/
def pySplit (sep : Char) (s : String) : List String :=
  (splitGo [sep] s.data 0).map (fun l => ⟨l⟩)

/-- Python s.lower(), character by character. -/
def pyLower (s : String) : String := ⟨s.data.map Char.toLower⟩

/-- Python substring containment (the in operator on str). -/
def containsSub (pat : List Char) : List Char → Bool
  | [] => pat.isPrefixOf []
  | c :: rest => pat.isPrefixOf (c :: rest) || containsSub pat rest

/-- Insertion-ordered association list modelling a Python dict. -/
abbrev AList := List (String × String)

/-- Python membership: key in d. -/
def containsKey (d : AList) (k : String) : Bool := d.any (fun p => decide (p.1 = k))

/-- Python assignment d[k] = v: update in place if the key exists, else append. -/
def insertD (d : AList) (k v : String) : AList :=
  if containsKey d k then d.map (fun p => if p.1 = k then (k, v) else p)
  else d ++ [(k, v)]

/-- The value stored at the first occurrence of a key. -/
def lookupD : AList → String → Option String
  | [], _ => none
  | p :: rest, k => if p.1 = k then some p.2 else lookupD rest k

/-- Characters of s with every newline removed, Python s.replace of a newline
by the empty string. -/
def removeNl (s : String) : String := ⟨s.data.filter (fun c => c ≠ '\n')⟩

/-- prepare_data.get_batch_id: second-to-last backslash-separated segment of
the path; fewer than two segments raises a Python IndexError, modelled as an
error. -/
def get_batch_id (s : String) : Except Unit String :=
  let segs := pySplit '\\' (removeNl s)
  if 2 ≤ segs.length then Except.ok (segs.getD (segs.length - 2) "") else Except.error ()

/-- prepare_data.get_doc_id: last backslash-separated segment of the path, cut
at its first dot. -/
def get_doc_id (s : String) : String :=
  (pySplit '.' ((pySplit '\\' (removeNl s)).getLastD "")).headD ""

/-- The item list of an index file: strip the content, split on commas, strip
whitespace and then double quotes from each field. -/
def itemsOf (content : String) : List String :=
  (pySplit ',' (pyStrip content)).map (fun it => stripQuote (pyStrip it))

/-- The trailing field of the item list (Python items[-1]; the item list of a
split is never empty, so the default is never taken). -/
def lastItemOf (items : List String) : String := items.getLastD ""

/-- The key/value loop of parse_index_file: the loop index i ranges over
2, 4, ... strictly below the length of the item list without its last element;
the value guard compares i + 1 against the full item count, exactly as the
source does. The fuel argument only bounds the iteration count and is
instantiated with the item count. -/
def kvLoopIdx (items : List String) : Nat → Nat → AList → AList
  | 0, _, d => d
  | Nat.succ fuel, i, d =>
    if i < items.length - 1 then
      kvLoopIdx items fuel (i + 2)
        (insertD d (items.getD i "")
          (if i + 1 < items.length then items.getD (i + 1) "" else ""))
    else d

/-- The dictionary built by parse_index_file before batch/document ids are
added: the two positional fields, then the key/value loop. -/
def kvData (items : List String) : AList :=
  kvLoopIdx items items.length 2
    (insertD (insertD [] "BATCHKLASSE" (items.getD 0 "")) "BATCHCONTENT" (items.getD 1 ""))

/-- The body of parse_index_file on the already-split item list. Every Python
exception inside the try block is collapsed to Except.error: the IndexError of
get_batch_id on a short path, the IndexError of reading the second item of a
one-item list, and the UnboundLocalError of referencing batch_id when the
trailing field was empty yet the {Batch ID} key is absent. -/
def parseItems (items : List String) : Except Unit AList :=
  let lastItem := lastItemOf items
  let batchDocE : Except Unit (Option (String × String)) :=
    if lastItem = "" then Except.ok none
    else
      match get_batch_id lastItem with
      | Except.ok bid => Except.ok (some (bid, get_doc_id lastItem))
      | Except.error e => Except.error e
  match batchDocE with
  | Except.error e => Except.error e
  | Except.ok batchDoc =>
    match items with
    | _ :: _ :: _ =>
      let d := kvData items
      if containsKey d "{Batch ID}" then Except.ok d
      else
        match batchDoc with
        | some (bid, did) => Except.ok (insertD (insertD d "{Batch ID}" bid) "{Document ID}" did)
        | none => Except.error ()
    | _ => Except.error ()

/-- prepare_data.parse_index_file on the file content: the surrounding
try/except returns the empty dict on any failure. -/
def parseContent (content : String) : AList :=
  match parseItems (itemsOf content) with
  | Except.ok d => d
  | Except.error _ => []

/-- prepare_data.is_expected_format: all six required keys present. -/
def is_expected_format (d : AList) : Bool :=
  ["BATCHKLASSE", "BATCHCONTENT", "{Batch ID}", "{Document ID}", "docType", "{pageCount}"].all
    (fun k => containsKey d k)

/-- prepare_data.is_blacklisted: some blacklist entry, lowercased, is a
substring of the lowercased text. The Python set of entries is modelled as a
list (iteration order does not affect the result). -/
def is_blacklisted (text : String) (blacklist_emails : List String) : Bool :=
  blacklist_emails.any (fun email => containsSub (pyLower email).data (pyLower text).data)

/-- prepare_data.chunks, with fuel bounding the number of produced chunks by
the list length (sufficient whenever n is at least one). -/
def chunksGo {α : Type} : Nat → List α → Nat → List (List α)
  | 0, _, _ => []
  | Nat.succ _, [], _ => []
  | Nat.succ fuel, c :: rest, n => ((c :: rest).take n) :: chunksGo fuel ((c :: rest).drop n) n

/-- prepare_data.chunks: successive n-sized slices of the list. -/
def chunks {α : Type} (lst : List α) (n : Nat) : List (List α) :=
  chunksGo lst.length lst n

/-- A spaCy token: its text, its trailing whitespace (token.whitespace_), and
its entity label (token.ent_type_, empty when the token is in no entity). -/
structure Token where
  text : String
  ws : String
  ent : String
deriving DecidableEq

/-- spaCy token.text_with_ws. -/
def Token.text_with_ws (t : Token) : String := t.text ++ t.ws

/-- The external capabilities consumed by the pipeline: the filesystem, the
spaCy phrase matcher (spans returns the texts of the retained spans after
spacy.util.filter_spans), the spaCy tokenizer with entity labels, and the two
compiled regexes of annonymization.py given by their match functions. -/
structure Env where
  readFile : String → Option String
  spans : String → List String
  tokens : String → List Token
  emailMatch : List Char → Option Nat
  phoneMatch : List Char → Option Nat

/-- annonymization.regex_substitutions: the ordered list of (label, pattern)
pairs, email pattern first, phone pattern second. -/
def regex_substitutions (env : Env) : List (String × (List Char → Option Nat)) :=
  [("EMAIL_PATTERN", env.emailMatch), ("PHONE_PATTERN", env.phoneMatch)]

/-- The regex loop of anonymize_text: each pattern applied in list order,
every occurrence replaced by the bracketed sentinel carrying the label. -/
def applyRegexSubs (env : Env) (text : String) : String :=
  (regex_substitutions env).foldl
    (fun t p => regexSub p.2 ("[REDACTED_" ++ p.1 ++ "]") t) text

/-- The entity loop of anonymize_text: build the token list left to right,
emitting the sentinel for PER/ORG/LOC tokens and token.text_with_ws otherwise,
then join. -/
def entity_redact (toks : List Token) : String :=
  String.join (toks.foldl
    (fun acc t =>
      acc ++ [if t.ent ∈ ["PER", "ORG", "LOC"] then "[REDACTED]" else t.text_with_ws]) [])

/-- prepare_data.anonymize_text: the regex substitutions followed by the
entity redaction of the re-tokenized intermediate text. -/
def anonymize_text (env : Env) (text : String) : String :=
  entity_redact (env.tokens (applyRegexSubs env text))

/-- prepare_data.remove_common_phrases: for each retained matched span, a
global literal re.sub of the span text by the phrase sentinel. -/
def remove_common_phrases (env : Env) (text : String) : String :=
  (env.spans text).foldl
    (fun t s => regexSub (litMatch s.data) "[REDACTED_PHRASE]" t) text

/-- Python os.path.dirname for the relative slash-separated paths used here. -/
def dirname (p : String) : String :=
  String.intercalate "/" (pySplit '/' p).dropLast

/-- Python os.path.basename. -/
def basename (p : String) : String := (pySplit '/' p).getLastD ""

/-- Python os.path.flatten for a relative second component. -/
def joinPath (a b : String) : String := if a = "" then b else a ++ "/" ++ b

/-- Python s.replace(pat, rep): every non-overlapping occurrence, left to
right. -/
def pyReplaceStr (pat rep s : String) : String := regexSub (litMatch pat.data) rep s

/-- prepare_data.get_text_file_path. -/
def get_text_file_path (indexFilePath : String) : String :=
  joinPath (dirname indexFilePath) (pyReplaceStr "_index.txt" ".txt" (basename indexFilePath))

/-- prepare_data.parse_index_file: open the index file and parse it; any
failure (including an unreadable file) yields the empty dict. -/
def parse_index_file (env : Env) (indexFilePath : String) : AList :=
  match env.readFile indexFilePath with
  | some content => parseContent content
  | none => []

/-- One iteration of the document loop of process_index_files, acting on the
accumulated (rows, blacklist counter) state. Existence and readability of the
paired text file are modelled together by env.readFile. -/
def processStep (env : Env) (bl : List String) (acc : List AList × Nat)
    (indexFile : String) : List AList × Nat :=
  let data := parse_index_file env indexFile
  if is_expected_format data = false then acc
  else
    match env.readFile (get_text_file_path indexFile) with
    | some rawText =>
      if is_blacklisted rawText bl then (acc.1, acc.2 + 1)
      else
        (acc.1 ++ [insertD data "text" (anonymize_text env (remove_common_phrases env rawText))],
         acc.2)
    | none => (acc.1 ++ [insertD data "text" ""], acc.2)

/-- prepare_data.process_index_files, observed through the rows of the chunk
dataframe it persists and the per-chunk blacklist drop counter. -/
def process_index_files (env : Env) (bl : List String) (chunk : List String) :
    List AList × Nat :=
  chunk.foldl (processStep env bl) ([], 0)

/-- Modelled from the spec: the span-exact phrase replacement that section 4.4
describes, missing as such from the source. Given character spans (start,
stop) of the matched phrases, replace exactly those spans by the phrase
sentinel and copy every character outside them unchanged. -/
def replaceSpansGo (sps : List (Nat × Nat)) : List Char → Nat → Nat → List Char
  | [], _, _ => []
  | _ :: rest, i, Nat.succ s => replaceSpansGo sps rest (i + 1) s
  | c :: rest, i, 0 =>
    match sps.find? (fun sp => sp.1 == i && i < sp.2) with
    | some sp => "[REDACTED_PHRASE]".data ++ replaceSpansGo sps rest (i + 1) (sp.2 - i - 1)
    | none => c :: replaceSpansGo sps rest (i + 1) 0

/-- Modelled from the spec: replace exactly the given non-overlapping
character spans of the text with the phrase sentinel. -/
def replaceSpans (sps : List (Nat × Nat)) (text : String) : String :=
  ⟨replaceSpansGo sps text.data 0 0⟩

/-- The per-token emission of the entity loop as the spec states it: the
sentinel for a PER/ORG/LOC token, the token text with its trailing whitespace
otherwise. -/
def emitTok (t : Token) : String :=
  if t.ent ∈ ["PER", "ORG", "LOC"] then "[REDACTED]" else t.text_with_ws

/-- A well-formed classification-style index line: explicit batch/document id
keys and an empty trailing field. -/
def idxContentW : String :=
  "\"zip\",\"file\",\"{Batch ID}\",\"B1\",\"{Document ID}\",\"D1\",\"docType\",\"bill\",\"{pageCount}\",\"5\",\"\""

/-- A small concrete filesystem: one index file paired with one text file that
mentions a blacklisted address. The recognizer and matcher capabilities find
nothing. -/
def envW : Env where
  readFile := fun p =>
    if p = "B/D/doc_index.txt" then some idxContentW
    else if p = "B/D/doc.txt" then some "Kontakt blacklisted@example.com hier" else none
  spans := fun _ => []
  tokens := fun _ => []
  emailMatch := fun _ => none
  phoneMatch := fun _ => none

/-- The blacklist of the concrete scenario. -/
def blW : List String := ["blacklisted@example.com"]

/-- Text containing the common phrase at positions 17 to 27 and, elsewhere,
the same character sequence as a proper prefix of a longer word. -/
def txtC2 : String := "Beste Grüßen und Beste Grüße"

/-- A matcher capability behaving as the spaCy phrase matcher does on txtC2:
the token sequence of the phrase occurs once (the tokens of the first word
pair are Beste and Grüßen, which the lowercased token pattern does not match),
so exactly one span is retained. -/
def envC2 : Env where
  readFile := fun _ => none
  spans := fun t => if t = txtC2 then ["Beste Grüße"] else []
  tokens := fun _ => []
  emailMatch := fun _ => none
  phoneMatch := fun _ => none

/-- An attributes-style index line with an odd number of fields between the
positional pair and the trailing path field. -/
def c9content : String := "\"A\",\"B\",\"k\",\"X\\Y\\Z.txt\""

/-- An attributes-style index line deriving batch and document ids from its
trailing path field. -/
def c8contentW : String :=
  "\"zip\",\"file\",\"docType\",\"bill\",\"{pageCount}\",\"7\",\"B\\D\\f_x.txt\""

/-- A classification-style index line (empty trailing field) with no explicit
batch id key. -/
def c10content : String := "\"zip\",\"file\",\"docType\",\"bill\",\"\""

theorem lookupD_map_update (k v : String) :
    ∀ d : AList, containsKey d k = true →
      lookupD (d.map (fun p => if p.1 = k then (k, v) else p)) k = some v := by
  intro d
  induction d with
  | nil => intro h; simp [containsKey] at h
  | cons p rest ih =>
    intro h
    by_cases hp : p.1 = k
    · simp [lookupD, hp]
    · have hrest : containsKey rest k = true := by
        simp only [containsKey, List.any_cons, Bool.or_eq_true, decide_eq_true_eq] at h
        rcases h with h | h
        · exact absurd h hp
        · simpa [containsKey] using h
      simp [lookupD, hp, ih hrest]

theorem lookupD_append_single (k v : String) :
    ∀ d : AList, containsKey d k = false → lookupD (d ++ [(k, v)]) k = some v := by
  intro d
  induction d with
  | nil => intro h; simp [lookupD]
  | cons p rest ih =>
    intro h
    simp only [containsKey, List.any_cons, Bool.or_eq_false_iff, decide_eq_false_iff_not] at h
    have hrest : containsKey rest k = false := by simpa [containsKey] using h.2
    simp [lookupD, h.1, ih hrest]

theorem lookupD_insertD_self (d : AList) (k v : String) :
    lookupD (insertD d k v) k = some v := by
  unfold insertD
  by_cases h : containsKey d k = true
  · rw [if_pos h]
    exact lookupD_map_update k v d h
  · rw [if_neg h]
    exact lookupD_append_single k v d (Bool.eq_false_iff.mpr h)

theorem lookupD_map_update_ne (k k2 v : String) (hne : k2 ≠ k) :
    ∀ d : AList, lookupD (d.map (fun p => if p.1 = k2 then (k2, v) else p)) k = lookupD d k := by
  intro d
  induction d with
  | nil => simp [lookupD]
  | cons p rest ih =>
    by_cases hp : p.1 = k2
    · have hpk : p.1 ≠ k := by rw [hp]; exact hne
      simp [lookupD, hp, hne, hpk, ih]
    · by_cases hpk : p.1 = k
      · simp [lookupD, hp, hpk, Ne.symm hne]
      · simp [lookupD, hp, hpk, ih]

theorem lookupD_append_single_ne (k k2 v : String) (hne : k2 ≠ k) :
    ∀ d : AList, lookupD (d ++ [(k2, v)]) k = lookupD d k := by
  intro d
  induction d with
  | nil => simp [lookupD, hne]
  | cons p rest ih =>
    by_cases hp : p.1 = k
    · simp [lookupD, hp]
    · simp [lookupD, hp, ih]

theorem lookupD_insertD_ne (d : AList) (k k2 v : String) (hne : k2 ≠ k) :
    lookupD (insertD d k2 v) k = lookupD d k := by
  unfold insertD
  by_cases h : containsKey d k2 = true
  · rw [if_pos h]; exact lookupD_map_update_ne k k2 v hne d
  · rw [if_neg h]; exact lookupD_append_single_ne k k2 v hne d

theorem containsSub_iff (pat : List Char) :
    ∀ l : List Char, containsSub pat l = true ↔ pat <:+: l := by
  intro l
  induction l with
  | nil =>
    constructor
    · intro h
      have : pat <+: [] := by simpa [containsSub, List.isPrefixOf_iff_prefix] using h
      exact this.isInfix
    · intro h
      have : pat = [] := List.eq_nil_of_infix_nil h
      simp [containsSub, this, List.isPrefixOf_iff_prefix]
  | cons c rest ih =>
    simp only [containsSub, Bool.or_eq_true, List.isPrefixOf_iff_prefix, ih,
      List.infix_cons_iff]

/-- C5: is_blacklisted text blacklist is true exactly when some blacklist
entry, lowercased character by character as Python str.lower does, occurs as a
contiguous substring of the lowercased text. -/
theorem is_blacklisted_iff (text : String) (bl : List String) :
    is_blacklisted text bl = true ↔
      ∃ e ∈ bl, (pyLower e).data <:+: (pyLower text).data := by
  simp [is_blacklisted, List.any_eq_true, containsSub_iff]

theorem chunksGo_nil {α : Type} (fuel n : Nat) : chunksGo fuel ([] : List α) n = [] := by
  cases fuel <;> rfl

theorem chunksGo_join {α : Type} (n : Nat) (hn : 1 ≤ n) :
    ∀ (fuel : Nat) (lst : List α), lst.length ≤ fuel → (chunksGo fuel lst n).flatten = lst := by
  intro fuel
  induction fuel with
  | zero =>
    intro lst h
    have : lst = [] := List.eq_nil_of_length_eq_zero (Nat.le_zero.mp h)
    subst this
    rfl
  | succ fuel ih =>
    intro lst h
    cases lst with
    | nil => rfl
    | cons x rest =>
      show ((x :: rest).take n :: chunksGo fuel ((x :: rest).drop n) n).flatten = x :: rest
      rw [List.flatten_cons, ih ((x :: rest).drop n) (by simp [List.length_drop] at h ⊢; omega),
        List.take_append_drop]

theorem chunksGo_dropLast_length {α : Type} (n : Nat) (hn : 1 ≤ n) :
    ∀ (fuel : Nat) (lst : List α), lst.length ≤ fuel →
      ∀ c ∈ (chunksGo fuel lst n).dropLast, c.length = n := by
  intro fuel
  induction fuel with
  | zero => intro lst h c hc; simp [chunksGo] at hc
  | succ fuel ih =>
    intro lst h c hc
    cases lst with
    | nil => simp [chunksGo] at hc
    | cons x rest =>
      have hstep : chunksGo (fuel + 1) (x :: rest) n
          = (x :: rest).take n :: chunksGo fuel ((x :: rest).drop n) n := rfl
      rw [hstep] at hc
      cases hrec : chunksGo fuel ((x :: rest).drop n) n with
      | nil => rw [hrec] at hc; simp at hc
      | cons y ys =>
        rw [hrec, List.dropLast_cons₂, List.mem_cons] at hc
        rcases hc with hc | hc
        · subst hc
          have hne : (x :: rest).drop n ≠ [] := by
            intro hnil
            rw [hnil, chunksGo_nil] at hrec
            exact List.cons_ne_nil y ys hrec.symm
          have hlt : n < (x :: rest).length := by
            by_contra hge
            exact hne (List.drop_eq_nil_of_le (Nat.le_of_not_lt hge))
          have hlt2 : n < rest.length + 1 := by simpa using hlt
          simp [List.length_take]
          omega
        · have := ih ((x :: rest).drop n) (by simp [List.length_drop] at h ⊢; omega) c
          rw [hrec] at this
          exact this hc

theorem chunksGo_length_bounds {α : Type} (n : Nat) (hn : 1 ≤ n) :
    ∀ (fuel : Nat) (lst : List α), lst.length ≤ fuel →
      ∀ c ∈ chunksGo fuel lst n, 1 ≤ c.length ∧ c.length ≤ n := by
  intro fuel
  induction fuel with
  | zero => intro lst h c hc; simp [chunksGo] at hc
  | succ fuel ih =>
    intro lst h c hc
    cases lst with
    | nil => simp [chunksGo] at hc
    | cons x rest =>
      have hstep : chunksGo (fuel + 1) (x :: rest) n
          = (x :: rest).take n :: chunksGo fuel ((x :: rest).drop n) n := rfl
      rw [hstep, List.mem_cons] at hc
      rcases hc with hc | hc
      · subst hc
        constructor
        · simp [List.length_take]
          omega
        · simp [List.length_take]
      · exact ih ((x :: rest).drop n) (by simp [List.length_drop] at h ⊢; omega) c hc

/-- C6: for every list and chunk size n of at least one, chunks yields the
contiguous slices in order: their concatenation restores the list, every chunk
but possibly the last has length exactly n, every chunk is non-empty and no
longer than n, and the ten-element example with n = 3 splits as stated. -/
theorem chunks_spec {α : Type} (lst : List α) (n : Nat) (hn : 1 ≤ n) :
    (chunks lst n).flatten = lst
    ∧ (∀ c ∈ (chunks lst n).dropLast, c.length = n)
    ∧ (∀ c ∈ chunks lst n, 1 ≤ c.length ∧ c.length ≤ n)
    ∧ chunks ([0, 1, 2, 3, 4, 5, 6, 7, 8, 9] : List Nat) 3
        = [[0, 1, 2], [3, 4, 5], [6, 7, 8], [9]] :=
  ⟨chunksGo_join n hn lst.length lst le_rfl,
   chunksGo_dropLast_length n hn lst.length lst le_rfl,
   chunksGo_length_bounds n hn lst.length lst le_rfl,
   by decide⟩

/-- Witness for C6 at the concrete list 0..9 with chunk size 3. -/
theorem chunks_spec_witness :
    (chunks ([0, 1, 2, 3, 4, 5, 6, 7, 8, 9] : List Nat) 3).flatten = [0, 1, 2, 3, 4, 5, 6, 7, 8, 9]
    ∧ (∀ c ∈ (chunks ([0, 1, 2, 3, 4, 5, 6, 7, 8, 9] : List Nat) 3).dropLast, c.length = 3)
    ∧ (∀ c ∈ chunks ([0, 1, 2, 3, 4, 5, 6, 7, 8, 9] : List Nat) 3, 1 ≤ c.length ∧ c.length ≤ 3)
    ∧ chunks ([0, 1, 2, 3, 4, 5, 6, 7, 8, 9] : List Nat) 3
        = [[0, 1, 2], [3, 4, 5], [6, 7, 8], [9]] :=
  chunks_spec [0, 1, 2, 3, 4, 5, 6, 7, 8, 9] 3 (by decide)

theorem parseItems_attr (x y : String) (rest : List String) (bid : String)
    (hlast : lastItemOf (x :: y :: rest) ≠ "")
    (hbid : get_batch_id (lastItemOf (x :: y :: rest)) = Except.ok bid)
    (hno : containsKey (kvData (x :: y :: rest)) "{Batch ID}" = false) :
    parseItems (x :: y :: rest)
      = Except.ok (insertD (insertD (kvData (x :: y :: rest)) "{Batch ID}" bid)
          "{Document ID}" (get_doc_id (lastItemOf (x :: y :: rest)))) := by
  simp [parseItems, hlast, hbid, hno]

/-- C8: on an index line whose trailing field is a non-empty path of shape
b backslash d0 backslash f (three backslash-separated segments, as in the
archive layout BatchID/DocumentID/file), whose filename f splits at dots into
base and extension, and whose key/value pairs carry no explicit Batch ID key,
parse_index_file stores the second-to-last path segment d0 under the Batch ID
key and the last segment cut at its extension dot, base, under the Document ID
key. -/
theorem parse_path_ids (content b d0 f base fext : String)
    (hlen : 2 ≤ (itemsOf content).length)
    (hlast : lastItemOf (itemsOf content) ≠ "")
    (hsegs : pySplit '\\' (removeNl (lastItemOf (itemsOf content))) = [b, d0, f])
    (hdot : pySplit '.' f = [base, fext])
    (hno : containsKey (kvData (itemsOf content)) "{Batch ID}" = false) :
    lookupD (parseContent content) "{Batch ID}" = some d0
    ∧ lookupD (parseContent content) "{Document ID}" = some base := by
  obtain ⟨x, t1, hx⟩ :=
    List.exists_cons_of_ne_nil (l := itemsOf content)
      (by intro hnil; rw [hnil] at hlen; simp at hlen)
  obtain ⟨y, t2, hy⟩ :=
    List.exists_cons_of_ne_nil (l := t1)
      (by intro hnil; rw [hx, hnil] at hlen; simp at hlen)
  have hitems : itemsOf content = x :: y :: t2 := by rw [hx, hy]
  rw [hitems] at hlast hsegs hno
  have hbid : get_batch_id (lastItemOf (x :: y :: t2)) = Except.ok d0 := by
    simp [get_batch_id, hsegs]
  have hdid : get_doc_id (lastItemOf (x :: y :: t2)) = base := by
    simp [get_doc_id, hsegs, hdot]
  have hparse : parseContent content
      = insertD (insertD (kvData (x :: y :: t2)) "{Batch ID}" d0) "{Document ID}" base := by
    rw [parseContent, hitems, parseItems_attr x y t2 d0 hlast hbid hno, hdid]
  rw [hparse]
  constructor
  · rw [lookupD_insertD_ne _ _ _ _ (by decide), lookupD_insertD_self]
  · rw [lookupD_insertD_self]

/-- Witness for C8: a concrete attributes-style line with trailing path
B backslash D backslash f_x.txt. -/
theorem parse_path_ids_witness :
    lookupD (parseContent c8contentW) "{Batch ID}" = some "D"
    ∧ lookupD (parseContent c8contentW) "{Document ID}" = some "f_x" :=
  parse_path_ids c8contentW "B" "D" "f_x.txt" "f_x" "txt"
    (by decide) (by decide) (by decide) (by decide) (by decide)

/-- C9: the claim that the final unmatched key of an odd middle-field line is
mapped to the empty string fails on an attributes-style line. The loop bound
already excludes the index of the trailing field, so the guard that would
substitute an empty value compares against the full item count and never
fires; the unmatched key k receives the trailing path field itself as value
(and the trailing field is still used for the derived ids). -/
theorem odd_fields_trailing_value :
    parseContent c9content
      = [("BATCHKLASSE", "A"), ("BATCHCONTENT", "B"), ("k", "X\\Y\\Z.txt"),
         ("{Batch ID}", "Y"), ("{Document ID}", "Z")]
    ∧ lookupD (parseContent c9content) "k" = some "X\\Y\\Z.txt"
    ∧ lookupD (parseContent c9content) "k" ≠ some "" :=
  ⟨by decide, by decide, by decide⟩

theorem parseItems_classif (items : List String)
    (hlast : lastItemOf items = "")
    (hno : containsKey (kvData items) "{Batch ID}" = false) :
    parseItems items = Except.error () := by
  cases items with
  | nil => rfl
  | cons x t =>
    cases t with
    | nil => simp [parseItems, hlast]
    | cons y t2 => simp [parseItems, hlast, hno]

/-- C10: an index line whose trailing field is empty (classification shape)
and whose key/value pairs carry no explicit Batch ID key makes
parse_index_file return the empty dict (the never-assigned batch id is
referenced, raising inside the try block), and the empty dict fails the
expected-format check, so the document is skipped. -/
theorem parse_classification_missing_bid (content : String)
    (hlast : lastItemOf (itemsOf content) = "")
    (hno : containsKey (kvData (itemsOf content)) "{Batch ID}" = false) :
    parseContent content = [] ∧ is_expected_format [] = false := by
  constructor
  · rw [parseContent, parseItems_classif (itemsOf content) hlast hno]
  · rfl

/-- Witness for C10: a concrete classification-style line without an explicit
batch id key. -/
theorem parse_classification_missing_bid_witness :
    parseContent c10content = [] ∧ is_expected_format [] = false :=
  parse_classification_missing_bid c10content (by decide) (by decide)

theorem splitGo_ne_nil (pat : List Char) :
    ∀ (l : List Char) (s : Nat), splitGo pat l s ≠ [] := by
  intro l
  induction l with
  | nil => intro s; cases s <;> simp [splitGo]
  | cons c rest ih =>
    intro s
    cases s with
    | succ s => simpa [splitGo] using ih s
    | zero =>
      by_cases h : pat ≠ [] ∧ pat.isPrefixOf (c :: rest)
      · simp [splitGo, h]
      · simp only [splitGo, if_neg h]
        cases hr : splitGo pat rest 0 with
        | nil => simp
        | cons seg segs => simp

theorem subGo_litMatch (pat rep : List Char) :
    ∀ (l : List Char) (s : Nat),
      subGo (litMatch pat) rep l s = joinSep rep (splitGo pat l s) := by
  intro l
  induction l with
  | nil => intro s; cases s <;> simp [subGo, splitGo, joinSep]
  | cons c rest ih =>
    intro s
    cases s with
    | succ s =>
      show subGo (litMatch pat) rep rest s = joinSep rep (splitGo pat rest s)
      exact ih s
    | zero =>
      by_cases h : pat ≠ [] ∧ pat.isPrefixOf (c :: rest)
      · obtain ⟨m, hm⟩ : ∃ m, pat.length = m + 1 := by
          cases pat with
          | nil => exact absurd rfl h.1
          | cons p ps => exact ⟨ps.length, rfl⟩
        have hmatch : litMatch pat (c :: rest) = some (m + 1) := by
          rw [litMatch, if_pos h, hm]
        have hsub : subGo (litMatch pat) rep (c :: rest) 0
            = rep ++ subGo (litMatch pat) rep rest m := by
          show (match litMatch pat (c :: rest) with
            | some (Nat.succ n) => rep ++ subGo (litMatch pat) rep rest n
            | _ => c :: subGo (litMatch pat) rep rest 0)
            = rep ++ subGo (litMatch pat) rep rest m
          rw [hmatch]
        have hsplit : splitGo pat (c :: rest) 0 = [] :: splitGo pat rest m := by
          rw [splitGo, if_pos h, hm, Nat.add_sub_cancel]
        rw [hsub, hsplit]
        cases hx : splitGo pat rest m with
        | nil => exact absurd hx (splitGo_ne_nil pat rest m)
        | cons seg segs =>
          rw [joinSep, ← hx, ih m]
          simp
      · have hmatch : litMatch pat (c :: rest) = none := by
          rw [litMatch, if_neg h]
        have hsub : subGo (litMatch pat) rep (c :: rest) 0
            = c :: subGo (litMatch pat) rep rest 0 := by
          show (match litMatch pat (c :: rest) with
            | some (Nat.succ n) => rep ++ subGo (litMatch pat) rep rest n
            | _ => c :: subGo (litMatch pat) rep rest 0)
            = c :: subGo (litMatch pat) rep rest 0
          rw [hmatch]
        rw [hsub, splitGo, if_neg h]
        cases hx : splitGo pat rest 0 with
        | nil => exact absurd hx (splitGo_ne_nil pat rest 0)
        | cons seg segs =>
          have hrec := ih 0
          rw [hx] at hrec
          rw [hrec]
          cases segs with
          | nil => rw [joinSep, joinSep]
          | cons seg2 ss => rw [joinSep, joinSep]; simp

theorem regexSub_lit (pat : List Char) (rep text : String) :
    regexSub (litMatch pat) rep text = ⟨joinSep rep.data (splitGo pat text.data 0)⟩ :=
  congrArg String.mk (subGo_litMatch pat rep.data text.data 0)

/-- C2 (amended): remove_common_phrases performs, for each retained span text
in order, a global replacement of every leftmost non-overlapping occurrence of
that exact character sequence anywhere in the current text with the phrase
sentinel: the output interleaves the sentinel between the segments of the
text split at those occurrences, so exactly the characters outside the
replaced occurrences (not outside the matched spans only) are preserved
verbatim. -/
theorem remove_common_phrases_global (env : Env) (text : String) :
    remove_common_phrases env text
      = (env.spans text).foldl
          (fun t s => ⟨joinSep "[REDACTED_PHRASE]".data (splitGo s.data t.data 0)⟩) text := by
  unfold remove_common_phrases
  have hfun : (fun (t : String) (s : String) => regexSub (litMatch s.data) "[REDACTED_PHRASE]" t)
      = fun t s => (⟨joinSep "[REDACTED_PHRASE]".data (splitGo s.data t.data 0)⟩ : String) :=
    funext fun t => funext fun s => regexSub_lit s.data "[REDACTED_PHRASE]" t
  rw [hfun]

/-- C2 counterexample: with the retained span Beste Grüße at character
positions 17 to 27 of txtC2 (its only token-level match, since the first
word pair tokenizes as Beste and Grüßen), the code also rewrites the
occurrence of the same character sequence inside the word Grüßen, so the
characters outside the matched span are not preserved verbatim and the output
differs from the span-exact replacement the claim describes. -/
theorem remove_common_phrases_not_span_exact :
    envC2.spans txtC2 = ["Beste Grüße"]
    ∧ (txtC2.data.drop 17).take 11 = "Beste Grüße".data
    ∧ remove_common_phrases envC2 txtC2 = "[REDACTED_PHRASE]n und [REDACTED_PHRASE]"
    ∧ replaceSpans [(17, 28)] txtC2 = "Beste Grüßen und [REDACTED_PHRASE]"
    ∧ remove_common_phrases envC2 txtC2 ≠ replaceSpans [(17, 28)] txtC2 :=
  ⟨by decide, by decide, by decide, by decide, by decide⟩

/-- C3: anonymize_text applies the regex substitution list sequentially in
its fixed order, labels first elements EMAIL_PATTERN then PHONE_PATTERN, and
the composed result applies the email pattern before the phone pattern, each
replacing every occurrence (regexSub scans left to right over the whole text)
by the bracketed sentinel of its label. -/
theorem regex_subs_order (env : Env) (text : String) :
    (regex_substitutions env).map Prod.fst = ["EMAIL_PATTERN", "PHONE_PATTERN"]
    ∧ applyRegexSubs env text
        = regexSub env.phoneMatch "[REDACTED_PHONE_PATTERN]"
            (regexSub env.emailMatch "[REDACTED_EMAIL_PATTERN]" text) :=
  ⟨rfl, rfl⟩

theorem foldl_append_map {α β : Type} (f : α → β) :
    ∀ (l : List α) (acc : List β), l.foldl (fun a t => a ++ [f t]) acc = acc ++ l.map f := by
  intro l
  induction l with
  | nil => intro acc; simp
  | cons x xs ih => intro acc; simp [ih]

/-- C4: the entity stage emits, token by token, exactly the per-token rule of
the claim: entity_redact equals the join of the per-token emission over every
tokenization, the emission of a PER/ORG/LOC token is the sentinel, the
emission of any other token is its text followed by its trailing whitespace,
and consequently on a tokenization that carries none of those three entity
kinds and whose concatenated text-with-whitespace restores the input (the
spaCy reconstruction guarantee) the stage is the identity. -/
theorem entity_redact_spec (toks : List Token) :
    entity_redact toks = String.join (toks.map emitTok)
    ∧ (∀ t ∈ toks, t.ent ∈ (["PER", "ORG", "LOC"] : List String) → emitTok t = "[REDACTED]")
    ∧ (∀ t ∈ toks, t.ent ∉ (["PER", "ORG", "LOC"] : List String) → emitTok t = t.text_with_ws)
    ∧ (∀ s : String, String.join (toks.map Token.text_with_ws) = s →
        (∀ t ∈ toks, t.ent ∉ (["PER", "ORG", "LOC"] : List String)) →
        entity_redact toks = s) := by
  have h1 : entity_redact toks = String.join (toks.map emitTok) := by
    unfold entity_redact
    rw [foldl_append_map]
    congr 1
  refine ⟨h1, ?_, ?_, ?_⟩
  · intro t _ ht
    simp [emitTok, ht]
  · intro t _ ht
    simp [emitTok, ht]
  · intro s hws hents
    rw [h1, ← hws]
    have hmap : toks.map emitTok = toks.map Token.text_with_ws := by
      apply List.map_congr_left
      intro t ht
      have h := hents t ht
      simp only [List.mem_cons, List.not_mem_nil, or_false, not_or] at h
      simp [emitTok, h.1, h.2.1, h.2.2]
    rw [hmap]

theorem processStep_shift (env : Env) (bl : List String) (d : String)
    (acc : List AList × Nat) :
    processStep env bl acc d
      = (acc.1 ++ (processStep env bl ([], 0) d).1,
         acc.2 + (processStep env bl ([], 0) d).2) := by
  unfold processStep
  by_cases hf : is_expected_format (parse_index_file env d) = false
  · simp [hf]
  · cases hr : env.readFile (get_text_file_path d) with
    | none => simp [hf, hr]
    | some raw =>
      by_cases hb : is_blacklisted raw bl = true
      · simp [hf, hr, hb]
      · simp [hf, hr, hb]

theorem process_foldl_shift (env : Env) (bl : List String) :
    ∀ (rest : List String) (acc : List AList × Nat),
      List.foldl (processStep env bl) acc rest
        = (acc.1 ++ (process_index_files env bl rest).1,
           acc.2 + (process_index_files env bl rest).2) := by
  intro rest
  induction rest with
  | nil => intro acc; simp [process_index_files]
  | cons d ds ih =>
    intro acc
    have hd : process_index_files env bl (d :: ds)
        = ((processStep env bl ([], 0) d).1 ++ (process_index_files env bl ds).1,
           (processStep env bl ([], 0) d).2 + (process_index_files env bl ds).2) := by
      show List.foldl (processStep env bl) ([], 0) (d :: ds)
          = ((processStep env bl ([], 0) d).1 ++ (process_index_files env bl ds).1,
             (processStep env bl ([], 0) d).2 + (process_index_files env bl ds).2)
      rw [List.foldl_cons, ih (processStep env bl ([], 0) d)]
    rw [List.foldl_cons, processStep_shift, ih, hd]
    simp [List.append_assoc, Nat.add_assoc]

/-- C1: in the per-document loop of process_index_files, a document with a
paired text file whose raw content (before any phrase, pattern or entity
redaction: the redaction capabilities carried by env are arbitrary here and
are never applied to this document) passes the blacklist check contributes no
row to the chunk output, increments the per-chunk drop counter by one, and
leaves the processing of the surrounding documents unchanged. -/
theorem blacklist_drop_pre_redaction (env : Env) (bl : List String)
    (xs ys : List String) (d raw : String)
    (hfmt : is_expected_format (parse_index_file env d) = true)
    (hraw : env.readFile (get_text_file_path d) = some raw)
    (hbl : is_blacklisted raw bl = true) :
    process_index_files env bl (xs ++ d :: ys)
      = ((process_index_files env bl xs).1 ++ (process_index_files env bl ys).1,
         (process_index_files env bl xs).2 + (process_index_files env bl ys).2 + 1) := by
  unfold process_index_files
  rw [List.foldl_append, List.foldl_cons]
  have hstep : ∀ acc : List AList × Nat, processStep env bl acc d = (acc.1, acc.2 + 1) := by
    intro acc
    unfold processStep
    simp [hfmt, hraw, hbl]
  rw [hstep, process_foldl_shift]
  have := process_foldl_shift env bl xs (([] : List AList), 0)
  simp only [List.nil_append, Nat.zero_add] at this
  rw [show List.foldl (processStep env bl) ([], 0) xs = process_index_files env bl xs from rfl]
  rw [show List.foldl (processStep env bl) ([], 0) ys = process_index_files env bl ys from rfl]
  simp [Nat.add_right_comm]

/-- Witness for C1: a one-document chunk whose text file mentions the
blacklisted address; the document yields no row and the counter reads one. -/
theorem blacklist_drop_pre_redaction_witness :
    process_index_files envW blW ([] ++ "B/D/doc_index.txt" :: [])
      = ((process_index_files envW blW []).1 ++ (process_index_files envW blW []).1,
         (process_index_files envW blW []).2 + (process_index_files envW blW []).2 + 1) :=
  blacklist_drop_pre_redaction envW blW [] [] "B/D/doc_index.txt"
    "Kontakt blacklisted@example.com hier" (by decide) (by decide) (by decide)

/-- C7: a document whose parsed record fails the expected-format check
(because parse_index_file fell back to the empty dict on a failure, or
because a required key is missing) contributes no row to the chunk output,
and the documents before and after it are processed exactly as they would be
on their own; the embedding is total, so no exception escapes the chunk. The
empty dict indeed fails the check. -/
theorem skip_unexpected_format (env : Env) (bl : List String)
    (xs ys : List String) (d : String)
    (hfmt : is_expected_format (parse_index_file env d) = false) :
    process_index_files env bl (xs ++ d :: ys)
      = ((process_index_files env bl xs).1 ++ (process_index_files env bl ys).1,
         (process_index_files env bl xs).2 + (process_index_files env bl ys).2)
    ∧ is_expected_format [] = false := by
  constructor
  · unfold process_index_files
    rw [List.foldl_append, List.foldl_cons]
    have hstep : ∀ acc : List AList × Nat, processStep env bl acc d = acc := by
      intro acc
      unfold processStep
      simp [hfmt]
    rw [hstep, process_foldl_shift]
    rw [show List.foldl (processStep env bl) ([], 0) xs = process_index_files env bl xs from rfl]
    rw [show List.foldl (processStep env bl) ([], 0) ys = process_index_files env bl ys from rfl]
  · rfl

/-- Witness for C7: a chunk of an unreadable index file followed by a good
document; the bad document is skipped and the good one still yields its row. -/
theorem skip_unexpected_format_witness :
    process_index_files envW ["zzz"] ([] ++ "missing_index.txt" :: ["B/D/doc_index.txt"])
      = ((process_index_files envW ["zzz"] []).1
           ++ (process_index_files envW ["zzz"] ["B/D/doc_index.txt"]).1,
         (process_index_files envW ["zzz"] []).2
           + (process_index_files envW ["zzz"] ["B/D/doc_index.txt"]).2)
    ∧ is_expected_format [] = false :=
  skip_unexpected_format envW ["zzz"] [] ["B/D/doc_index.txt"] "missing_index.txt" (by decide)

end Prep
